import Mathlib

/-!
Shallow embedding of the polymarket_bot streaming order-book / strategy /
execution pipeline.  Prices, sizes and times are modelled as rationals;
Python `dict`s keyed by price are modelled as association lists that keep
keys unique (the dict invariant), with in-place replacement preserving
insertion order as CPython does.
-/

/-- Python `round` (banker's rounding, round-half-to-even) to an integer. -/
def pyRound (x : ℚ) : ℤ :=
  if x - (⌊x⌋ : ℚ) < 1/2 then ⌊x⌋
  else if 1/2 < x - (⌊x⌋ : ℚ) then ⌊x⌋ + 1
  else if ⌊x⌋ % 2 = 0 then ⌊x⌋ else ⌊x⌋ + 1

/-- Python `round(x, 2)`: round to two decimal places (half-to-even). -/
def round2 (x : ℚ) : ℚ := (pyRound (x * 100) : ℚ) / 100

theorem pyRound_intCast (n : ℤ) : pyRound (n : ℚ) = n := by
  simp [pyRound]

theorem round2_intCast (n : ℤ) : round2 (n : ℚ) = n := by
  unfold round2
  have h : ((n : ℚ) * 100) = ((n * 100 : ℤ) : ℚ) := by push_cast; ring
  rw [h, pyRound_intCast]
  push_cast
  field_simp

theorem floor_le_pyRound (x : ℚ) : ⌊x⌋ ≤ pyRound x := by
  unfold pyRound
  split
  · exact le_refl _
  · split
    · exact le_of_lt (lt_add_one _)
    · split
      · exact le_refl _
      · exact le_of_lt (lt_add_one _)

theorem one_le_round2 (x : ℚ) (hx : 1 ≤ x) : 1 ≤ round2 x := by
  have h100 : (100 : ℚ) ≤ x * 100 := by linarith
  have hfl : (100 : ℤ) ≤ ⌊x * 100⌋ := by
    have := Int.le_floor.mpr (by exact_mod_cast h100)
    simpa using this
  have hr : (100 : ℤ) ≤ pyRound (x * 100) :=
    le_trans hfl (floor_le_pyRound _)
  have : (100 : ℚ) ≤ (pyRound (x * 100) : ℚ) := by exact_mod_cast hr
  unfold round2
  linarith

/-! ### `LocalOrderBook` (src/Polymarket_Arbitrage/models.py)

The two Python dicts `bids`/`asks` (price -> size) are association lists;
`setVal` is `target[price] = size` (in-place replace, CPython insertion
order), `eraseKey` is `del target[price]`. -/

/-- Order side: `"buy"` targets the bid map, anything else the ask map. -/
inductive Side where
  | buy : Side
  | sell : Side
deriving DecidableEq

/-- `target[price] = size`: replace the binding of `price` in place,
or append it at the end when absent (Python dict assignment). -/
def setVal : List (ℚ × ℚ) → ℚ → ℚ → List (ℚ × ℚ)
  | [], p, s => [(p, s)]
  | (q, t) :: rest, p, s =>
      if q = p then (p, s) :: rest else (q, t) :: setVal rest p s

/-- `del target[price]`: drop the first binding of `price` when present. -/
def eraseKey : List (ℚ × ℚ) → ℚ → List (ℚ × ℚ)
  | [], _ => []
  | (q, t) :: rest, p => if q = p then rest else (q, t) :: eraseKey rest p

/-- `target[price]`, as an option. -/
def lookupVal : List (ℚ × ℚ) → ℚ → Option ℚ
  | [], _ => none
  | (q, t) :: rest, p => if q = p then some t else lookupVal rest p

/-- The keys (prices) of a side's map. -/
def keysOf (l : List (ℚ × ℚ)) : List ℚ := l.map Prod.fst

/-- `min(d.keys())` of a nonempty dict (0 as the unused empty default). -/
def minKey : List (ℚ × ℚ) → ℚ
  | [] => 0
  | [x] => x.1
  | x :: y :: rest => min x.1 (minKey (y :: rest))

/-- `max(d.keys())` of a nonempty dict (0 as the unused empty default). -/
def maxKey : List (ℚ × ℚ) → ℚ
  | [] => 0
  | [x] => x.1
  | x :: y :: rest => max x.1 (maxKey (y :: rest))

/-- The local order book of one token: two price->size maps and the cached
top-of-book prices (`LocalOrderBook.__init__` starts all empty / 0.0). -/
structure LocalOrderBook where
  bids : List (ℚ × ℚ)
  asks : List (ℚ × ℚ)
  best_bid : ℚ
  best_ask : ℚ
deriving DecidableEq

/-- A freshly constructed book: empty maps, tops at 0.0. -/
def initBook : LocalOrderBook := ⟨[], [], 0, 0⟩

/-- `LocalOrderBook._recalculate_top_of_book`. -/
def recalculateTopOfBook (b : LocalOrderBook) : LocalOrderBook :=
  { b with
    best_bid := if b.bids = [] then 0 else maxKey b.bids
    best_ask := if b.asks = [] then 0 else minKey b.asks }

/-- `LocalOrderBook.update(side, price, size)`: size 0 removes the level,
otherwise it replaces/inserts it; then the top of book is recomputed. -/
def LocalOrderBook.update (b : LocalOrderBook) (side : Side) (price size : ℚ) :
    LocalOrderBook :=
  let b' :=
    match side with
    | Side.buy =>
        { b with bids := if size = 0 then eraseKey b.bids price
                         else setVal b.bids price size }
    | Side.sell =>
        { b with asks := if size = 0 then eraseKey b.asks price
                         else setVal b.asks price size }
  recalculateTopOfBook b'

/-- `LocalOrderBook.get_best_ask`: `(None, 0)` on an empty side, else the
cached best price and the size resting there. -/
def LocalOrderBook.get_best_ask (b : LocalOrderBook) : Option ℚ × ℚ :=
  if b.asks = [] then (none, 0)
  else (some b.best_ask, (lookupVal b.asks b.best_ask).getD 0)

/-- `LocalOrderBook.get_best_bid`. -/
def LocalOrderBook.get_best_bid (b : LocalOrderBook) : Option ℚ × ℚ :=
  if b.bids = [] then (none, 0)
  else (some b.best_bid, (lookupVal b.bids b.best_bid).getD 0)

/-- One level update taken from a stream message. -/
structure LevelUpdate where
  side : Side
  price : ℚ
  size : ℚ

/-- Apply a sequence of level updates in arrival order. -/
def applyUpdates (b : LocalOrderBook) (us : List LevelUpdate) : LocalOrderBook :=
  us.foldl (fun bk u => bk.update u.side u.price u.size) b

/-- One WebSocket book message as consumed by `MarketStream._process_update`:
its `bids` and `asks` level lists (both snapshot `book` events and
incremental `price_change` events carry this shape). -/
structure BookMsg where
  bids : List (ℚ × ℚ)
  asks : List (ℚ × ℚ)

/-- `MarketStream._process_update`: every level of the message is applied
with `book.update`, bids first, then asks.  No clearing happens. -/
def processUpdate (b : LocalOrderBook) (msg : BookMsg) : LocalOrderBook :=
  let b1 := msg.bids.foldl (fun bk lv => bk.update Side.buy lv.1 lv.2) b
  msg.asks.foldl (fun bk lv => bk.update Side.sell lv.1 lv.2) b1

/-! ### Dictionary and top-of-book lemmas -/

theorem mem_setVal {l : List (ℚ × ℚ)} {p s : ℚ} {x : ℚ × ℚ}
    (h : x ∈ setVal l p s) : x = (p, s) ∨ x ∈ l := by
  induction l with
  | nil => simpa [setVal] using h
  | cons y rest ih =>
      obtain ⟨q, t⟩ := y
      by_cases hq : q = p
      · simp only [setVal, if_pos hq, List.mem_cons] at h
        rcases h with h | h
        · exact Or.inl h
        · exact Or.inr (List.mem_cons_of_mem _ h)
      · simp only [setVal, if_neg hq, List.mem_cons] at h
        rcases h with h | h
        · exact Or.inr (by simp [h])
        · rcases ih h with h' | h'
          · exact Or.inl h'
          · exact Or.inr (List.mem_cons_of_mem _ h')

theorem mem_setVal_self (l : List (ℚ × ℚ)) (p s : ℚ) : (p, s) ∈ setVal l p s := by
  induction l with
  | nil => simp [setVal]
  | cons y rest ih =>
      obtain ⟨q, t⟩ := y
      by_cases hq : q = p
      · simp [setVal, hq]
      · simp [setVal, hq, ih]

theorem mem_setVal_of_ne {l : List (ℚ × ℚ)} {x : ℚ × ℚ} (h : x ∈ l)
    (p s : ℚ) (hne : x.1 ≠ p) : x ∈ setVal l p s := by
  induction l with
  | nil => cases h
  | cons y rest ih =>
      obtain ⟨q, t⟩ := y
      rcases List.mem_cons.mp h with h' | h'
      · subst h'
        have hq : q ≠ p := hne
        simp [setVal, hq]
      · by_cases hq : q = p
        · simp only [setVal, if_pos hq]
          exact List.mem_cons_of_mem _ h'
        · simp only [setVal, if_neg hq]
          exact List.mem_cons_of_mem _ (ih h')

theorem setVal_ne_nil (l : List (ℚ × ℚ)) (p s : ℚ) : setVal l p s ≠ [] := by
  cases l with
  | nil => simp [setVal]
  | cons y rest =>
      obtain ⟨q, t⟩ := y
      by_cases hq : q = p <;> simp [setVal, hq]

theorem mem_eraseKey {l : List (ℚ × ℚ)} {p : ℚ} {x : ℚ × ℚ}
    (h : x ∈ eraseKey l p) : x ∈ l := by
  induction l with
  | nil => simp [eraseKey] at h
  | cons y rest ih =>
      obtain ⟨q, t⟩ := y
      by_cases hq : q = p
      · simp only [eraseKey, if_pos hq] at h
        exact List.mem_cons_of_mem _ h
      · simp only [eraseKey, if_neg hq] at h
        rcases List.mem_cons.mp h with h' | h'
        · simp [h']
        · exact List.mem_cons_of_mem _ (ih h')

theorem mem_eraseKey_of_ne {l : List (ℚ × ℚ)} {x : ℚ × ℚ} (h : x ∈ l)
    (p : ℚ) (hne : x.1 ≠ p) : x ∈ eraseKey l p := by
  induction l with
  | nil => cases h
  | cons y rest ih =>
      obtain ⟨q, t⟩ := y
      rcases List.mem_cons.mp h with h' | h'
      · subst h'
        have hq : q ≠ p := hne
        simp [eraseKey, hq]
      · by_cases hq : q = p
        · simpa [eraseKey, hq] using h'
        · simp only [eraseKey, if_neg hq]
          exact List.mem_cons_of_mem _ (ih h')

theorem eraseKey_eq_of_not_mem {l : List (ℚ × ℚ)} {p : ℚ}
    (h : p ∉ keysOf l) : eraseKey l p = l := by
  induction l with
  | nil => rfl
  | cons y rest ih =>
      obtain ⟨q, t⟩ := y
      simp only [keysOf, List.map_cons, List.mem_cons] at h
      push_neg at h
      have hqp : q ≠ p := fun hq => h.1 hq.symm
      simp only [eraseKey, if_neg hqp]
      rw [ih (by simpa [keysOf] using h.2)]

theorem not_mem_keysOf_eraseKey {l : List (ℚ × ℚ)} (hnd : (keysOf l).Nodup)
    (p : ℚ) : p ∉ keysOf (eraseKey l p) := by
  induction l with
  | nil => simp [eraseKey, keysOf]
  | cons y rest ih =>
      obtain ⟨q, t⟩ := y
      simp only [keysOf, List.map_cons, List.nodup_cons] at hnd
      by_cases hq : q = p
      · subst hq
        simpa [eraseKey, keysOf] using hnd.1
      · simp only [eraseKey, if_neg hq, keysOf, List.map_cons, List.mem_cons]
        push_neg
        exact ⟨fun hpq => hq hpq.symm, ih hnd.2⟩

theorem minKey_mem : ∀ (l : List (ℚ × ℚ)), l ≠ [] → minKey l ∈ keysOf l
  | [], h => absurd rfl h
  | [x], _ => by simp [minKey, keysOf]
  | x :: y :: rest, _ => by
      have ih := minKey_mem (y :: rest) (by simp)
      simp only [minKey, keysOf, List.map_cons, List.mem_cons]
      rcases min_cases x.1 (minKey (y :: rest)) with ⟨hm, _⟩ | ⟨hm, _⟩
      · exact Or.inl hm
      · rw [hm]
        simpa [keysOf] using Or.inr ih

theorem minKey_le : ∀ (l : List (ℚ × ℚ)), ∀ k ∈ keysOf l, minKey l ≤ k
  | [], k, hk => by simp [keysOf] at hk
  | [x], k, hk => by
      simp only [keysOf, List.map_cons, List.map_nil, List.mem_singleton] at hk
      subst hk
      simp [minKey]
  | x :: y :: rest, k, hk => by
      have hmin : minKey (x :: y :: rest) = min x.1 (minKey (y :: rest)) := rfl
      simp only [keysOf, List.map_cons, List.mem_cons] at hk
      rcases hk with hk | hk
      · subst hk
        rw [hmin]
        exact min_le_left _ _
      · have ih := minKey_le (y :: rest) k (by simpa [keysOf] using hk)
        rw [hmin]
        exact le_trans (min_le_right _ _) ih

theorem maxKey_mem : ∀ (l : List (ℚ × ℚ)), l ≠ [] → maxKey l ∈ keysOf l
  | [], h => absurd rfl h
  | [x], _ => by simp [maxKey, keysOf]
  | x :: y :: rest, _ => by
      have ih := maxKey_mem (y :: rest) (by simp)
      simp only [maxKey, keysOf, List.map_cons, List.mem_cons]
      rcases max_cases x.1 (maxKey (y :: rest)) with ⟨hm, _⟩ | ⟨hm, _⟩
      · exact Or.inl hm
      · rw [hm]
        simpa [keysOf] using Or.inr ih

theorem le_maxKey : ∀ (l : List (ℚ × ℚ)), ∀ k ∈ keysOf l, k ≤ maxKey l
  | [], k, hk => by simp [keysOf] at hk
  | [x], k, hk => by
      simp only [keysOf, List.map_cons, List.map_nil, List.mem_singleton] at hk
      subst hk
      simp [maxKey]
  | x :: y :: rest, k, hk => by
      have hmax : maxKey (x :: y :: rest) = max x.1 (maxKey (y :: rest)) := rfl
      simp only [keysOf, List.map_cons, List.mem_cons] at hk
      rcases hk with hk | hk
      · subst hk
        rw [hmax]
        exact le_max_left _ _
      · have ih := le_maxKey (y :: rest) k (by simpa [keysOf] using hk)
        rw [hmax]
        exact le_trans ih (le_max_right _ _)

/-! ### Book invariant -/

/-- No level of a side's map rests with size 0. -/
def sideInv (l : List (ℚ × ℚ)) : Prop := ∀ x ∈ l, x.2 ≠ 0

/-- The reachable-state invariant: zero-size levels are absent and the
cached tops agree with the maps. -/
def BookInv (b : LocalOrderBook) : Prop :=
  sideInv b.bids ∧ sideInv b.asks ∧
  b.best_bid = (if b.bids = [] then 0 else maxKey b.bids) ∧
  b.best_ask = (if b.asks = [] then 0 else minKey b.asks)

theorem sideInv_setVal {l : List (ℚ × ℚ)} (h : sideInv l) {p s : ℚ}
    (hs : s ≠ 0) : sideInv (setVal l p s) := by
  intro x hx
  rcases mem_setVal hx with h' | h'
  · rw [h']
    exact hs
  · exact h x h'

theorem sideInv_eraseKey {l : List (ℚ × ℚ)} (h : sideInv l) (p : ℚ) :
    sideInv (eraseKey l p) := fun x hx => h x (mem_eraseKey hx)

theorem bookInv_recalc (c : LocalOrderBook) (hb : sideInv c.bids)
    (ha : sideInv c.asks) : BookInv (recalculateTopOfBook c) :=
  ⟨hb, ha, rfl, rfl⟩

theorem update_bookInv (b : LocalOrderBook) (side : Side) (p s : ℚ)
    (hb : sideInv b.bids) (ha : sideInv b.asks) :
    BookInv (b.update side p s) := by
  cases side with
  | buy =>
      by_cases hs : s = 0
      · exact bookInv_recalc _ (by simpa [hs] using sideInv_eraseKey hb p) ha
      · exact bookInv_recalc _ (by simpa [hs] using sideInv_setVal hb hs) ha
  | sell =>
      by_cases hs : s = 0
      · exact bookInv_recalc _ hb (by simpa [hs] using sideInv_eraseKey ha p)
      · exact bookInv_recalc _ hb (by simpa [hs] using sideInv_setVal ha hs)

theorem bookInv_initBook : BookInv initBook := by
  refine ⟨?_, ?_, rfl, rfl⟩ <;> intro x hx <;> simp [initBook] at hx

theorem bookInv_applyUpdates (us : List LevelUpdate) :
    ∀ (b : LocalOrderBook), BookInv b → BookInv (applyUpdates b us) := by
  induction us with
  | nil => intro b hb; exact hb
  | cons u us ih =>
      intro b hb
      exact ih _ (update_bookInv b u.side u.price u.size hb.1 hb.2.1)

/-- C2: for every sequence of snapshot/delta level updates applied to an
`OrderBook`, no level with size 0 is present on either side; when a side is
empty its getter returns the explicit no-level result `(none, 0)`; and when
nonempty, best-ask is the minimum key among the present ask levels and
best-bid the maximum key among the present bid levels. -/
theorem C2_book_invariant_best_prices (us : List LevelUpdate) :
    (∀ x ∈ (applyUpdates initBook us).asks, x.2 ≠ 0) ∧
    (∀ x ∈ (applyUpdates initBook us).bids, x.2 ≠ 0) ∧
    ((applyUpdates initBook us).asks = [] →
      (applyUpdates initBook us).get_best_ask = (none, 0)) ∧
    ((applyUpdates initBook us).bids = [] →
      (applyUpdates initBook us).get_best_bid = (none, 0)) ∧
    ((applyUpdates initBook us).asks ≠ [] →
      ((applyUpdates initBook us).get_best_ask.1 =
          some (applyUpdates initBook us).best_ask ∧
        (applyUpdates initBook us).best_ask ∈
          keysOf (applyUpdates initBook us).asks ∧
        ∀ k ∈ keysOf (applyUpdates initBook us).asks,
          (applyUpdates initBook us).best_ask ≤ k)) ∧
    ((applyUpdates initBook us).bids ≠ [] →
      ((applyUpdates initBook us).get_best_bid.1 =
          some (applyUpdates initBook us).best_bid ∧
        (applyUpdates initBook us).best_bid ∈
          keysOf (applyUpdates initBook us).bids ∧
        ∀ k ∈ keysOf (applyUpdates initBook us).bids,
          k ≤ (applyUpdates initBook us).best_bid)) := by
  obtain ⟨hbid, hask, hbb, hba⟩ := bookInv_applyUpdates us initBook bookInv_initBook
  set b := applyUpdates initBook us with hb
  refine ⟨hask, hbid, ?_, ?_, ?_, ?_⟩
  · intro hnil
    simp [LocalOrderBook.get_best_ask, hnil]
  · intro hnil
    simp [LocalOrderBook.get_best_bid, hnil]
  · intro hnil
    have hmin : b.best_ask = minKey b.asks := by rw [hba, if_neg hnil]
    refine ⟨by simp [LocalOrderBook.get_best_ask, hnil], ?_, ?_⟩
    · rw [hmin]
      exact minKey_mem b.asks hnil
    · intro k hk
      rw [hmin]
      exact minKey_le b.asks k hk
  · intro hnil
    have hmax : b.best_bid = maxKey b.bids := by rw [hbb, if_neg hnil]
    refine ⟨by simp [LocalOrderBook.get_best_bid, hnil], ?_, ?_⟩
    · rw [hmax]
      exact maxKey_mem b.bids hnil
    · intro k hk
      rw [hmax]
      exact le_maxKey b.bids k hk

/-- Witness for C2 at the concrete update sequence
`[sell 0.5 size 10, buy 0.25 size 5, sell 0.5 size 0]`: the ask side becomes
empty again (the size-0 update removed the only ask level) and the getter
reports `(none, 0)`, while the bid getter reports the surviving bid. -/
theorem C2_book_invariant_best_prices_witness :
    (applyUpdates initBook
        [⟨Side.sell, 1/2, 10⟩, ⟨Side.buy, 1/4, 5⟩,
         ⟨Side.sell, 1/2, 0⟩]).get_best_ask = (none, 0) ∧
    (applyUpdates initBook
        [⟨Side.sell, 1/2, 10⟩, ⟨Side.buy, 1/4, 5⟩,
         ⟨Side.sell, 1/2, 0⟩]).get_best_bid.1 = some (1/4 : ℚ) := by
  have h := C2_book_invariant_best_prices
    [⟨Side.sell, 1/2, 10⟩, ⟨Side.buy, 1/4, 5⟩, ⟨Side.sell, 1/2, 0⟩]
  have hasks : (applyUpdates initBook
      [⟨Side.sell, 1/2, 10⟩, ⟨Side.buy, 1/4, 5⟩,
       ⟨Side.sell, 1/2, 0⟩]).asks = [] := by
    norm_num [applyUpdates, List.foldl, LocalOrderBook.update, initBook,
      recalculateTopOfBook, setVal, eraseKey]
  have hbids : (applyUpdates initBook
      [⟨Side.sell, 1/2, 10⟩, ⟨Side.buy, 1/4, 5⟩,
       ⟨Side.sell, 1/2, 0⟩]).bids ≠ [] := by
    norm_num [applyUpdates, List.foldl, LocalOrderBook.update, initBook,
      recalculateTopOfBook, setVal, eraseKey]
  refine ⟨h.2.2.1 hasks, ?_⟩
  have h1 := (h.2.2.2.2.2 hbids).1
  rw [h1]
  have : (applyUpdates initBook
      [⟨Side.sell, 1/2, 10⟩, ⟨Side.buy, 1/4, 5⟩,
       ⟨Side.sell, 1/2, 0⟩]).best_bid = (1/4 : ℚ) := by
    norm_num [applyUpdates, List.foldl, LocalOrderBook.update, initBook,
      recalculateTopOfBook, setVal, eraseKey, maxKey, minKey]
  rw [this]

/-! ### Idempotence of a delta (claim C8) -/

theorem recalc_congr {b1 b2 : LocalOrderBook} (hb : b1.bids = b2.bids)
    (ha : b1.asks = b2.asks) :
    recalculateTopOfBook b1 = recalculateTopOfBook b2 := by
  cases b1
  cases b2
  simp_all [recalculateTopOfBook]

theorem setVal_setVal (l : List (ℚ × ℚ)) (p s : ℚ) :
    setVal (setVal l p s) p s = setVal l p s := by
  induction l with
  | nil => simp [setVal]
  | cons y rest ih =>
      obtain ⟨q, t⟩ := y
      by_cases hq : q = p
      · simp [setVal, hq]
      · simp [setVal, hq, ih]

theorem eraseKey_eraseKey {l : List (ℚ × ℚ)} (hnd : (keysOf l).Nodup)
    (p : ℚ) : eraseKey (eraseKey l p) p = eraseKey l p :=
  eraseKey_eq_of_not_mem (not_mem_keysOf_eraseKey hnd p)

theorem update_buy_bids (b : LocalOrderBook) (p s : ℚ) :
    (b.update Side.buy p s).bids =
      (if s = 0 then eraseKey b.bids p else setVal b.bids p s) := rfl

theorem update_buy_asks (b : LocalOrderBook) (p s : ℚ) :
    (b.update Side.buy p s).asks = b.asks := rfl

theorem update_sell_asks (b : LocalOrderBook) (p s : ℚ) :
    (b.update Side.sell p s).asks =
      (if s = 0 then eraseKey b.asks p else setVal b.asks p s) := rfl

theorem update_sell_bids (b : LocalOrderBook) (p s : ℚ) :
    (b.update Side.sell p s).bids = b.bids := rfl

/-- C8: applying the same delta `(side, price, size)` twice yields exactly
the same book state (bid map, ask map and recomputed best bid/ask) as
applying it once, on any book whose sides hold each price at most once
(the Python dict invariant): re-setting a level to the same size and
re-removing an absent level are no-ops in effect. -/
theorem C8_update_idempotent (b : LocalOrderBook) (side : Side) (p s : ℚ)
    (hb : (keysOf b.bids).Nodup) (ha : (keysOf b.asks).Nodup) :
    (b.update side p s).update side p s = b.update side p s := by
  cases side with
  | buy =>
      show recalculateTopOfBook _ = recalculateTopOfBook _
      apply recalc_congr
      · by_cases hs : s = 0
        · simp [update_buy_bids, hs, eraseKey_eraseKey hb]
        · simp [update_buy_bids, hs, setVal_setVal]
      · simp [update_buy_asks]
  | sell =>
      show recalculateTopOfBook _ = recalculateTopOfBook _
      apply recalc_congr
      · simp [update_sell_bids]
      · by_cases hs : s = 0
        · simp [update_sell_asks, hs, eraseKey_eraseKey ha]
        · simp [update_sell_asks, hs, setVal_setVal]

/-- Witness for C8 on the concrete book holding one bid and two asks:
re-applying the delta that replaces the level at 0.60 (and likewise a
removal delta at an absent price) changes nothing. -/
theorem C8_update_idempotent_witness :
    ((LocalOrderBook.mk [(1/4, 5)] [(3/5, 7), (7/10, 2)] (1/4) (3/5)).update
        Side.sell (3/5) 9).update Side.sell (3/5) 9 =
      (LocalOrderBook.mk [(1/4, 5)] [(3/5, 7), (7/10, 2)] (1/4) (3/5)).update
        Side.sell (3/5) 9 := by
  apply C8_update_idempotent
  · norm_num [keysOf]
  · norm_num [keysOf]

/-! ### Snapshot handling (claim C3) -/

theorem asks_foldl_buy (lvls : List (ℚ × ℚ)) :
    ∀ (b : LocalOrderBook),
      (lvls.foldl (fun bk lv => bk.update Side.buy lv.1 lv.2) b).asks =
        b.asks := by
  induction lvls with
  | nil => intro b; rfl
  | cons lv lvls ih =>
      intro b
      rw [List.foldl_cons, ih, update_buy_asks]

theorem bids_foldl_sell (lvls : List (ℚ × ℚ)) :
    ∀ (b : LocalOrderBook),
      (lvls.foldl (fun bk lv => bk.update Side.sell lv.1 lv.2) b).bids =
        b.bids := by
  induction lvls with
  | nil => intro b; rfl
  | cons lv lvls ih =>
      intro b
      rw [List.foldl_cons, ih, update_sell_bids]

theorem mem_asks_foldl_sell {p s : ℚ} (lvls : List (ℚ × ℚ)) :
    ∀ (b : LocalOrderBook), (p, s) ∈ b.asks → p ∉ keysOf lvls →
      (p, s) ∈ (lvls.foldl (fun bk lv => bk.update Side.sell lv.1 lv.2) b).asks := by
  induction lvls with
  | nil => intro b hmem _; exact hmem
  | cons lv lvls ih =>
      intro b hmem hkey
      simp only [keysOf, List.map_cons, List.mem_cons] at hkey
      push_neg at hkey
      rw [List.foldl_cons]
      refine ih _ ?_ (by simpa [keysOf] using hkey.2)
      rw [update_sell_asks]
      by_cases hz : lv.2 = 0
      · rw [if_pos hz]
        exact mem_eraseKey_of_ne hmem _ hkey.1
      · rw [if_neg hz]
        exact mem_setVal_of_ne hmem _ _ hkey.1

theorem mem_bids_foldl_buy {p s : ℚ} (lvls : List (ℚ × ℚ)) :
    ∀ (b : LocalOrderBook), (p, s) ∈ b.bids → p ∉ keysOf lvls →
      (p, s) ∈ (lvls.foldl (fun bk lv => bk.update Side.buy lv.1 lv.2) b).bids := by
  induction lvls with
  | nil => intro b hmem _; exact hmem
  | cons lv lvls ih =>
      intro b hmem hkey
      simp only [keysOf, List.map_cons, List.mem_cons] at hkey
      push_neg at hkey
      rw [List.foldl_cons]
      refine ih _ ?_ (by simpa [keysOf] using hkey.2)
      rw [update_buy_bids]
      by_cases hz : lv.2 = 0
      · rw [if_pos hz]
        exact mem_eraseKey_of_ne hmem _ hkey.1
      · rw [if_neg hz]
        exact mem_setVal_of_ne hmem _ _ hkey.1

/-- The book holding one ask level at 0.5 size 10, as produced by the feed. -/
def staleBook : LocalOrderBook := initBook.update Side.sell (1/2) 10

/-- A snapshot message whose ask side lists only the level (0.6, 5). -/
def snapMsg : BookMsg := ⟨[], [(3/5, 5)]⟩

/-- C3 counterexample: `_process_update` does NOT clear existing levels on a
snapshot.  Processing a snapshot message listing only the ask level (0.6, 5)
over a book holding the ask level (0.5, 10) leaves the stale 0.5 level in
place, although 0.5 appears nowhere in the snapshot — a full replace would
have produced the single-level ask map `[(0.6, 5)]`. -/
theorem C3_counterexample_no_clear :
    (1/2, 10) ∈ (processUpdate staleBook snapMsg).asks ∧
    (1/2 : ℚ) ∉ keysOf snapMsg.asks ∧
    (processUpdate staleBook snapMsg).asks ≠ [((3/5 : ℚ), (5 : ℚ))] := by
  have h : (processUpdate staleBook snapMsg).asks =
      [((1/2 : ℚ), (10 : ℚ)), ((3/5 : ℚ), (5 : ℚ))] := by
    norm_num [processUpdate, staleBook, snapMsg, initBook, LocalOrderBook.update,
      recalculateTopOfBook, setVal, eraseKey, List.foldl]
  refine ⟨by rw [h]; simp, by norm_num [snapMsg, keysOf], by rw [h]; simp⟩

/-- C3 amended: both snapshot (`book`) and delta (`price_change`) messages
are applied incrementally by `MarketStream._process_update`; no clearing of
existing levels takes place, so every level whose price is not mentioned in
the message survives processing unchanged, on either side. -/
theorem C3_amended_incremental_processing (b : LocalOrderBook) (msg : BookMsg)
    (p s : ℚ) :
    ((p, s) ∈ b.asks → p ∉ keysOf msg.asks →
      (p, s) ∈ (processUpdate b msg).asks) ∧
    ((p, s) ∈ b.bids → p ∉ keysOf msg.bids →
      (p, s) ∈ (processUpdate b msg).bids) := by
  constructor
  · intro hmem hkey
    unfold processUpdate
    refine mem_asks_foldl_sell msg.asks _ ?_ hkey
    rw [asks_foldl_buy]
    exact hmem
  · intro hmem hkey
    unfold processUpdate
    rw [bids_foldl_sell]
    exact mem_bids_foldl_buy msg.bids _ hmem hkey

/-- Witness for the amended C3 at the concrete stale book and snapshot:
the untouched ask level (0.5, 10) survives the snapshot `[(0.6, 5)]`. -/
theorem C3_amended_incremental_processing_witness :
    (1/2, 10) ∈ (processUpdate staleBook snapMsg).asks := by
  refine (C3_amended_incremental_processing staleBook snapMsg (1/2) 10).1 ?_ ?_
  · norm_num [staleBook, initBook, LocalOrderBook.update, recalculateTopOfBook,
      setVal]
  · norm_num [snapMsg, keysOf]

/-! ### Intra-venue strategy (src/Polymarket_Arbitrage/strategy.py, config.py)

`Config` values with `MARKET_TYPE = "standard"` and
`USE_GASLESS_TRADING = False`, as set in config.py. -/

namespace ArbCfg

/-- `Config.MAX_TRADE_SIZE_USDC`. -/
def MAX_TRADE_SIZE_USDC : ℚ := 20000

/-- `Config.MIN_PROFIT_SPREAD` (0.005 for a standard market). -/
def MIN_PROFIT_SPREAD : ℚ := 1/200

/-- `Config.MIN_NET_PROFIT_SPREAD` (0.002). -/
def MIN_NET_PROFIT_SPREAD : ℚ := 1/500

/-- `Config.TOTAL_GAS_COST` (0.05 per trade, two trades, not gasless). -/
def TOTAL_GAS_COST : ℚ := 1/10

end ArbCfg

/-- The per-market taker fee rate: 0.01% for a US-regulated market,
0 otherwise (`taker_fee_rate` in `execute_arb`). -/
def takerFeeRate (marketTypeUS : Bool) : ℚ :=
  if marketTypeUS then 1/10000 else 0

/-- The trade size computed in `execute_arb`:
`round(max(min(min(s_a, s_b), MAX_TRADE_SIZE_USDC / total_cost), 0), 2)`. -/
def tradeSizeArb (p_a s_a p_b s_b : ℚ) : ℚ :=
  round2 (max (min (min s_a s_b) (ArbCfg.MAX_TRADE_SIZE_USDC / (p_a + p_b))) 0)

/-- Net profit after fees as computed in `execute_arb`:
gross profit minus taker fee, gas cost and the (zero) profit fee. -/
def netProfitArb (p_a p_b size : ℚ) (marketTypeUS : Bool) : ℚ :=
  (1 - (p_a + p_b)) * size -
    (((p_a + p_b) * size) * takerFeeRate marketTypeUS +
      ArbCfg.TOTAL_GAS_COST + 0)

/-- `net_profit_spread = net_profit / trade_size if trade_size > 0 else 0`. -/
def netProfitSpreadArb (p_a p_b size : ℚ) (marketTypeUS : Bool) : ℚ :=
  if 0 < size then netProfitArb p_a p_b size marketTypeUS / size else 0

/-- The observable outcome of one `ArbStrategy.execute_arb` call. -/
structure ExecResult where
  executed : Finset String
  submitted : Bool
  status : Option String
  marketRemoved : Bool

/-- `ArbStrategy.execute_arb`, with the two order submissions' outcomes
(`place_order` returning an order id or `None`) and the presence of the
market-removal callback passed in as oracles.  The dedup set is checked
first; the market key is added before any order is placed; a size- or
profit-gated rejection discards the key again; after submission the trade is
logged `FILLED` or `PARTIAL/FAILED` and the removal callback is invoked
unconditionally. -/
def executeArb (executed : Finset String) (key : String)
    (p_a s_a p_b s_b : ℚ) (marketTypeUS : Bool)
    (orderA orderB : Option String) (hasCallback : Bool) : ExecResult :=
  if key ∈ executed then ⟨executed, false, none, false⟩
  else
    let executed1 := insert key executed
    let trade_size := tradeSizeArb p_a s_a p_b s_b
    if trade_size < 2 then ⟨executed1.erase key, false, none, false⟩
    else if netProfitSpreadArb p_a p_b trade_size marketTypeUS <
        ArbCfg.MIN_NET_PROFIT_SPREAD then
      ⟨executed1.erase key, false, none, false⟩
    else
      ⟨executed1, true,
        some (if orderA.isSome && orderB.isSome then "FILLED"
              else "PARTIAL/FAILED"),
        hasCallback⟩

/-- C1: the executed-market-key set is checked before any order submission
and the key is inserted before orders are placed, so for a viable detected
opportunity submitted twice in rapid succession the first call submits, the
key is in the set it leaves behind, and the second call with the same market
key submits nothing and changes nothing — exactly one execution. -/
theorem C1_dedup_exactly_once (executed : Finset String) (key : String)
    (p_a s_a p_b s_b : ℚ) (us : Bool) (oA oB oA' oB' : Option String)
    (cb cb' : Bool)
    (hnew : key ∉ executed)
    (hsize : 2 ≤ tradeSizeArb p_a s_a p_b s_b)
    (hspread : ArbCfg.MIN_NET_PROFIT_SPREAD ≤
      netProfitSpreadArb p_a p_b (tradeSizeArb p_a s_a p_b s_b) us) :
    (executeArb executed key p_a s_a p_b s_b us oA oB cb).submitted = true ∧
    key ∈ (executeArb executed key p_a s_a p_b s_b us oA oB cb).executed ∧
    (executeArb (executeArb executed key p_a s_a p_b s_b us oA oB cb).executed
        key p_a s_a p_b s_b us oA' oB' cb').submitted = false ∧
    (executeArb (executeArb executed key p_a s_a p_b s_b us oA oB cb).executed
        key p_a s_a p_b s_b us oA' oB' cb').executed =
      (executeArb executed key p_a s_a p_b s_b us oA oB cb).executed := by
  have h1 : executeArb executed key p_a s_a p_b s_b us oA oB cb =
      ⟨insert key executed, true,
        some (if oA.isSome && oB.isSome then "FILLED" else "PARTIAL/FAILED"),
        cb⟩ := by
    unfold executeArb
    rw [if_neg hnew, if_neg (not_lt.mpr hsize), if_neg (not_lt.mpr hspread)]
  rw [h1]
  have hmem : key ∈ insert key executed := Finset.mem_insert_self key executed
  have h2 : executeArb (insert key executed) key p_a s_a p_b s_b us oA' oB' cb' =
      ⟨insert key executed, false, none, false⟩ := by
    unfold executeArb
    rw [if_pos hmem]
  rw [h2]
  exact ⟨rfl, hmem, rfl, rfl⟩

/-- Witness for C1 at the spec's worked example (asks 0.40/0.55, both sizes
1000, standard fee-free market): the first call executes, the second is a
no-op. -/
theorem C1_dedup_exactly_once_witness :
    (executeArb ∅ "tokA_tokB" (2/5) 1000 (11/20) 1000 false
        (some "oa") (some "ob") true).submitted = true ∧
    "tokA_tokB" ∈ (executeArb ∅ "tokA_tokB" (2/5) 1000 (11/20) 1000 false
        (some "oa") (some "ob") true).executed ∧
    (executeArb (executeArb ∅ "tokA_tokB" (2/5) 1000 (11/20) 1000 false
          (some "oa") (some "ob") true).executed
        "tokA_tokB" (2/5) 1000 (11/20) 1000 false
        (some "oa") (some "ob") true).submitted = false ∧
    (executeArb (executeArb ∅ "tokA_tokB" (2/5) 1000 (11/20) 1000 false
          (some "oa") (some "ob") true).executed
        "tokA_tokB" (2/5) 1000 (11/20) 1000 false
        (some "oa") (some "ob") true).executed =
      (executeArb ∅ "tokA_tokB" (2/5) 1000 (11/20) 1000 false
        (some "oa") (some "ob") true).executed := by
  have hts : tradeSizeArb (2/5) 1000 (11/20) 1000 = 1000 := by
    unfold tradeSizeArb
    rw [show max (min (min (1000:ℚ) 1000)
        (ArbCfg.MAX_TRADE_SIZE_USDC / (2/5 + 11/20))) 0 = 1000 by
      norm_num [ArbCfg.MAX_TRADE_SIZE_USDC, min_def, max_def]]
    rw [show ((1000:ℚ)) = ((1000:ℤ):ℚ) by norm_num, round2_intCast]
  refine C1_dedup_exactly_once ∅ "tokA_tokB" (2/5) 1000 (11/20) 1000 false
    (some "oa") (some "ob") (some "oa") (some "ob") true true
    (Finset.not_mem_empty _) ?_ ?_
  · rw [hts]
    norm_num
  · rw [hts]
    norm_num [netProfitSpreadArb, netProfitArb, takerFeeRate,
      ArbCfg.MIN_NET_PROFIT_SPREAD, ArbCfg.TOTAL_GAS_COST]

/-- C4: for a candidate opportunity (`totalCost < 1 − minProfitSpread`):
the trade size equals the rounded `min(sizeA, sizeB, maxNotional/totalCost)`;
a size below the minimum viable size (2.0) is rejected without orders; net
profit is `(1 − totalCost) × size − takerFee − gasCost`; and a net profit
per unit below `MIN_NET_PROFIT_SPREAD` is rejected without orders. -/
theorem C4_sizing_and_fee_gating (executed : Finset String) (key : String)
    (p_a s_a p_b s_b : ℚ) (us : Bool) (oA oB : Option String) (cb : Bool)
    (hopp : p_a + p_b < 1 - ArbCfg.MIN_PROFIT_SPREAD)
    (hpa : 0 < p_a) (hpb : 0 < p_b) (hsa : 0 ≤ s_a) (hsb : 0 ≤ s_b) :
    tradeSizeArb p_a s_a p_b s_b =
      round2 (min s_a (min s_b (ArbCfg.MAX_TRADE_SIZE_USDC / (p_a + p_b)))) ∧
    (tradeSizeArb p_a s_a p_b s_b < 2 →
      (executeArb executed key p_a s_a p_b s_b us oA oB cb).submitted =
        false) ∧
    (∀ size : ℚ, netProfitArb p_a p_b size us =
      (1 - (p_a + p_b)) * size -
        ((p_a + p_b) * size) * takerFeeRate us - ArbCfg.TOTAL_GAS_COST) ∧
    (netProfitSpreadArb p_a p_b (tradeSizeArb p_a s_a p_b s_b) us <
        ArbCfg.MIN_NET_PROFIT_SPREAD →
      (executeArb executed key p_a s_a p_b s_b us oA oB cb).submitted =
        false) := by
  have htot : 0 < p_a + p_b := by linarith
  have hcap : 0 ≤ ArbCfg.MAX_TRADE_SIZE_USDC / (p_a + p_b) := by
    apply div_nonneg _ (le_of_lt htot)
    norm_num [ArbCfg.MAX_TRADE_SIZE_USDC]
  have hmin0 : 0 ≤ min (min s_a s_b) (ArbCfg.MAX_TRADE_SIZE_USDC / (p_a + p_b)) :=
    le_min (le_min hsa hsb) hcap
  refine ⟨?_, ?_, ?_, ?_⟩
  · unfold tradeSizeArb
    rw [max_eq_left hmin0, min_assoc]
  · intro hlt
    unfold executeArb
    by_cases hk : key ∈ executed
    · rw [if_pos hk]
    · rw [if_neg hk, if_pos hlt]
  · intro size
    unfold netProfitArb
    ring
  · intro hlt
    unfold executeArb
    by_cases hk : key ∈ executed
    · rw [if_pos hk]
    · rw [if_neg hk]
      by_cases hsz : tradeSizeArb p_a s_a p_b s_b < 2
      · rw [if_pos hsz]
      · rw [if_neg hsz, if_pos hlt]

/-- Witness for C4 at the spec's worked example (asks 0.40/0.55, sizes
1000, maxNotional 20000): the candidate gate 0.95 < 0.995 holds and the
trade size is the rounded three-way minimum. -/
theorem C4_sizing_and_fee_gating_witness :
    tradeSizeArb (2/5) 1000 (11/20) 1000 =
      round2 (min (1000:ℚ)
        (min (1000:ℚ) (ArbCfg.MAX_TRADE_SIZE_USDC / (2/5 + 11/20)))) :=
  (C4_sizing_and_fee_gating ∅ "tokA_tokB" (2/5) 1000 (11/20) 1000 false
    none none false
    (by norm_num [ArbCfg.MIN_PROFIT_SPREAD])
    (by norm_num) (by norm_num) (by norm_num) (by norm_num)).1

/-- C6 (code bug): when an order submission fails (`place_order` returns no
order id, here for leg A), `execute_arb` still reports `submitted`, logs the
trade as `PARTIAL/FAILED`, leaves the market key in the executed set (no
dedup rollback), and still invokes the market-removal callback — the market
IS rotated.  The spec's §7 recovery (rollback, no rotation) is what the
surrounding comments intend ("After successful execution, remove market"),
but the code performs neither. -/
theorem C6_failed_submission_no_rollback :
    (executeArb ∅ "tokA_tokB" (2/5) 1000 (11/20) 1000 false
        none (some "ob") true).submitted = true ∧
    (executeArb ∅ "tokA_tokB" (2/5) 1000 (11/20) 1000 false
        none (some "ob") true).status = some "PARTIAL/FAILED" ∧
    "tokA_tokB" ∈ (executeArb ∅ "tokA_tokB" (2/5) 1000 (11/20) 1000 false
        none (some "ob") true).executed ∧
    (executeArb ∅ "tokA_tokB" (2/5) 1000 (11/20) 1000 false
        none (some "ob") true).marketRemoved = true := by
  have hts : tradeSizeArb (2/5) 1000 (11/20) 1000 = 1000 := by
    unfold tradeSizeArb
    rw [show max (min (min (1000:ℚ) 1000)
        (ArbCfg.MAX_TRADE_SIZE_USDC / (2/5 + 11/20))) 0 = 1000 by
      norm_num [ArbCfg.MAX_TRADE_SIZE_USDC, min_def, max_def]]
    rw [show ((1000:ℚ)) = ((1000:ℤ):ℚ) by norm_num, round2_intCast]
  have h1 : executeArb ∅ "tokA_tokB" (2/5) 1000 (11/20) 1000 false
      none (some "ob") true =
      ⟨insert "tokA_tokB" ∅, true, some "PARTIAL/FAILED", true⟩ := by
    unfold executeArb
    rw [if_neg (Finset.not_mem_empty _)]
    rw [if_neg (by rw [hts]; norm_num)]
    rw [if_neg (by
      rw [hts]
      norm_num [netProfitSpreadArb, netProfitArb, takerFeeRate,
        ArbCfg.MIN_NET_PROFIT_SPREAD, ArbCfg.TOTAL_GAS_COST])]
    rfl
  rw [h1]
  exact ⟨rfl, rfl, Finset.mem_insert_self _ _, rfl⟩

/-! ### Cross-venue delta-lag strategy
(src/PolyMarket_Binance_Arbitrage/delta_lag_strategy.py, config.py) -/

namespace LagCfg

/-- `Config.DELTA_THRESHOLD_PERCENT` (0.2%). -/
def DELTA_THRESHOLD_PERCENT : ℚ := 1/5

/-- `Config.EXPECTED_LAG_MIN` (2 s). -/
def EXPECTED_LAG_MIN : ℚ := 2

/-- `Config.EXIT_HOLD_SECONDS` (30 s). -/
def EXIT_HOLD_SECONDS : ℚ := 30

/-- `Config.MIN_EXIT_PROFIT_PCT` (1%). -/
def MIN_EXIT_PROFIT_PCT : ℚ := 1/100

/-- `Config.MAX_TRADE_SIZE_USDC` (100, cross-venue package). -/
def MAX_TRADE_SIZE_USDC : ℚ := 100

end LagCfg

/-- Direction of the Binance leader move (`move_info['direction']`):
`'up'`, or anything else treated as down. -/
inductive MoveDir where
  | up : MoveDir
  | down : MoveDir
deriving DecidableEq

/-- Market classification from `_determine_market_direction`. -/
inductive MarketDir where
  | bullish : MarketDir
  | bearish : MarketDir
deriving DecidableEq

/-- A follower market as the lag strategy sees it; the two keyword flags
stand for "the lowercased title contains a bearish / bullish keyword". -/
structure LagMarket where
  token_a : String
  token_b : String
  label_a : String
  label_b : String
  price_a : ℚ
  price_b : ℚ
  liquidity : ℚ
  titleHasBearishKeyword : Bool
  titleHasBullishKeyword : Bool

/-- `_determine_market_direction`: bearish keywords win, then bullish
keywords, default bullish. -/
def determineMarketDirection (m : LagMarket) : MarketDir :=
  if m.titleHasBearishKeyword then MarketDir.bearish
  else if m.titleHasBullishKeyword then MarketDir.bullish
  else MarketDir.bullish

/-- `_determine_outcome_to_buy`: the (token id, label, price) bought for a
market direction and move direction. -/
def determineOutcomeToBuy (m : LagMarket) (d : MoveDir) : String × String × ℚ :=
  match determineMarketDirection m, d with
  | MarketDir.bullish, MoveDir.up => (m.token_a, m.label_a, m.price_a)
  | MarketDir.bullish, MoveDir.down => (m.token_b, m.label_b, m.price_b)
  | MarketDir.bearish, MoveDir.up => (m.token_b, m.label_b, m.price_b)
  | MarketDir.bearish, MoveDir.down => (m.token_a, m.label_a, m.price_a)

/-- `poly_price_change_pct`: percentage change of the follower price, 0 when
the last price is not positive. -/
def polyPriceChangePct (currentPoly lastPoly : ℚ) : ℚ :=
  if 0 < lastPoly then (currentPoly - lastPoly) / lastPoly * 100 else 0

/-- The three-part lag condition tested in `_check_lag_opportunity`:
leader move above the trigger threshold, follower change below the 10%
expected pass-through of the leader move, follower last update older than
the minimum lag window. -/
def lagConditionHolds (movePct currentPoly lastPoly timeSince : ℚ) : Prop :=
  |movePct| > LagCfg.DELTA_THRESHOLD_PERCENT ∧
  |polyPriceChangePct currentPoly lastPoly| < |movePct| * (1/10) ∧
  timeSince > LagCfg.EXPECTED_LAG_MIN

/-- `_check_lag_opportunity` up to the lag declaration: skips on an already
open position, an unacceptable spread, missing Polymarket prices, or a
first observation (baseline initialisation); otherwise compares the chosen
outcome's current price against its last recorded price.  `polyPrices` is
the current `(price_a, price_b)` pair, `lastPoly` the recorded
`(price_a, price_b, timestamp)` triple, `now` the wall clock. -/
def checkLagOpportunity (m : LagMarket) (moveDir : MoveDir) (movePct : ℚ)
    (hasActivePosition spreadAcceptable : Bool)
    (polyPrices : Option (ℚ × ℚ)) (lastPoly : Option (ℚ × ℚ × ℚ))
    (now : ℚ) : Prop :=
  if hasActivePosition then False
  else if spreadAcceptable = false then False
  else
    match polyPrices with
    | none => False
    | some cur =>
      match lastPoly with
      | none => False
      | some last =>
        let tok := (determineOutcomeToBuy m moveDir).1
        let current := if tok = m.token_a then cur.1 else cur.2
        let lastPrice := if tok = m.token_a then last.1 else last.2.1
        lagConditionHolds movePct current lastPrice (now - last.2.2)

/-- C5: with no open position, an acceptable spread, current prices present
and a recorded baseline, a lag opportunity is declared if and only if the
leader's move exceeds the trigger threshold, the chosen follower outcome's
observed change is smaller than the 10% expected pass-through of that move,
and the follower's last update is older than the minimum lag window; and
the outcome bought matches the truth table exactly: bullish+up ⇒ first
outcome, bullish+down ⇒ second, bearish+up ⇒ second, bearish+down ⇒ first. -/
theorem C5_lag_iff_and_outcome_truth_table (m : LagMarket) (moveDir : MoveDir)
    (movePct : ℚ) (cur last : ℚ × ℚ) (ts now : ℚ) :
    (checkLagOpportunity m moveDir movePct false true (some cur)
        (some (last.1, last.2, ts)) now ↔
      (|movePct| > LagCfg.DELTA_THRESHOLD_PERCENT ∧
        |polyPriceChangePct
            (if (determineOutcomeToBuy m moveDir).1 = m.token_a
             then cur.1 else cur.2)
            (if (determineOutcomeToBuy m moveDir).1 = m.token_a
             then last.1 else last.2)| < |movePct| * (1/10) ∧
        now - ts > LagCfg.EXPECTED_LAG_MIN)) ∧
    (determineMarketDirection m = MarketDir.bullish →
      determineOutcomeToBuy m MoveDir.up = (m.token_a, m.label_a, m.price_a) ∧
      determineOutcomeToBuy m MoveDir.down = (m.token_b, m.label_b, m.price_b)) ∧
    (determineMarketDirection m = MarketDir.bearish →
      determineOutcomeToBuy m MoveDir.up = (m.token_b, m.label_b, m.price_b) ∧
      determineOutcomeToBuy m MoveDir.down = (m.token_a, m.label_a, m.price_a)) := by
  refine ⟨?_, ?_, ?_⟩
  · simp only [checkLagOpportunity, if_neg (by simp : ¬False = True)]
    simp [lagConditionHolds]
  · intro hdir
    unfold determineOutcomeToBuy
    rw [hdir]
    exact ⟨rfl, rfl⟩
  · intro hdir
    unfold determineOutcomeToBuy
    rw [hdir]
    exact ⟨rfl, rfl⟩

/-- Witness for C5 at the spec's worked example: a bearish follower market
(title contains "below"), leader move +0.3% with the follower unchanged for
3 s — above the 0.2% trigger, change 0% below the 0.03% pass-through, lag
3 s above the 2 s minimum — so the lag fires, and on the up-move the second
outcome is bought. -/
theorem C5_lag_iff_and_outcome_truth_table_witness :
    checkLagOpportunity
      ⟨"ta", "tb", "YES", "NO", 9/20, 11/20, 5000, true, false⟩
      MoveDir.up (3/10) false true (some (9/20, 11/20))
      (some (9/20, 11/20, 0)) 3 ∧
    determineOutcomeToBuy
        ⟨"ta", "tb", "YES", "NO", 9/20, 11/20, 5000, true, false⟩
        MoveDir.up = ("tb", "NO", 11/20) := by
  have h := C5_lag_iff_and_outcome_truth_table
    ⟨"ta", "tb", "YES", "NO", 9/20, 11/20, 5000, true, false⟩
    MoveDir.up (3/10) (9/20, 11/20) (9/20, 11/20) 0 3
  have hdir : determineMarketDirection
      ⟨"ta", "tb", "YES", "NO", 9/20, 11/20, 5000, true, false⟩ =
      MarketDir.bearish := rfl
  have hout := (h.2.2 hdir).1
  refine ⟨?_, hout⟩
  have habs : |(3/10 : ℚ)| = 3/10 := abs_of_nonneg (by norm_num)
  refine h.1.mpr ⟨?_, ?_, ?_⟩
  · rw [habs]
    norm_num [LagCfg.DELTA_THRESHOLD_PERCENT]
  · rw [hout, habs]
    norm_num [polyPriceChangePct]
  · norm_num [LagCfg.EXPECTED_LAG_MIN]

/-- An open cross-venue position (`active_positions[market_id]`): entry
time, entry price and size (the fields the exit logic reads). -/
structure Position where
  entry_time : ℚ
  entry_price : ℚ
  size : ℚ
deriving DecidableEq

/-- Lookup in the `active_positions` dict. -/
def lookupPos : List (String × Position) → String → Option Position
  | [], _ => none
  | (k, v) :: rest, mid => if k = mid then some v else lookupPos rest mid

/-- `del active_positions[market_id]`. -/
def erasePos : List (String × Position) → String → List (String × Position)
  | [], _ => []
  | (k, v) :: rest, mid => if k = mid then rest else (k, v) :: erasePos rest mid

/-- `_exit_position(market_id)`: returns unchanged when the position is
absent or no price data exists; otherwise removes the position only when
`profit_pct >= MIN_EXIT_PROFIT_PCT * 100`, else holds it open. -/
def exitPosition (positions : List (String × Position)) (market_id : String)
    (polyPrice : Option ℚ) : List (String × Position) :=
  match lookupPos positions market_id with
  | none => positions
  | some pos =>
    match polyPrice with
    | none => positions
    | some current =>
      if (current - pos.entry_price) / pos.entry_price * 100 ≥
          LagCfg.MIN_EXIT_PROFIT_PCT * 100 then
        erasePos positions market_id
      else positions

/-- `_schedule_exit(market_id)` after its `EXIT_HOLD_SECONDS` sleep: call
`_exit_position` if the position is still open. -/
def scheduledExit (positions : List (String × Position)) (market_id : String)
    (polyPrice : Option ℚ) : List (String × Position) :=
  match lookupPos positions market_id with
  | none => positions
  | some _ => exitPosition positions market_id polyPrice

/-- `_check_exit_conditions(market_id)` on a follower price update: early
exit when profit meets the threshold after at least 10 s, exit when the
hold time is exceeded, otherwise keep holding. -/
def checkExitConditions (positions : List (String × Position))
    (market_id : String) (polyPrice : Option ℚ) (now : ℚ) :
    List (String × Position) :=
  match lookupPos positions market_id with
  | none => positions
  | some pos =>
    match polyPrice with
    | none => positions
    | some current =>
      if (current - pos.entry_price) / pos.entry_price * 100 ≥
            LagCfg.MIN_EXIT_PROFIT_PCT * 100 ∧
          now - pos.entry_time ≥ 10 then
        exitPosition positions market_id polyPrice
      else if now - pos.entry_time ≥ LagCfg.EXIT_HOLD_SECONDS then
        exitPosition positions market_id polyPrice
      else positions

/-- C7 counterexample: a position entered at price 0.5 whose market price is
still 0.5 (0% unrealized profit) when the 30 s hold-duration timer fires is
NOT closed: `_schedule_exit` delegates to `_exit_position`, which removes
the position only when profit meets `MIN_EXIT_PROFIT_PCT`, so the position
stays in the active-position map — not "closed regardless of current
profit". -/
theorem C7_counterexample_hold_elapsed_not_closed :
    scheduledExit [("m1", ⟨0, 1/2, 10⟩)] "m1" (some (1/2)) =
      [("m1", ⟨0, 1/2, 10⟩)] ∧
    lookupPos (scheduledExit [("m1", ⟨0, 1/2, 10⟩)] "m1" (some (1/2))) "m1" =
      some ⟨0, 1/2, 10⟩ := by
  have h : scheduledExit [("m1", ⟨0, 1/2, 10⟩)] "m1" (some (1/2)) =
      [("m1", ⟨0, 1/2, 10⟩)] := by
    unfold scheduledExit exitPosition
    norm_num [lookupPos, LagCfg.MIN_EXIT_PROFIT_PCT]
  exact ⟨h, by rw [h]; simp [lookupPos]⟩

/-- C7 amended: the hold-duration timer invokes the exit routine, but the
position is removed from the active-position map only when unrealized
profit has reached the minimum exit profit (it is held open otherwise);
the early exit on a price update closes it once profit reaches the
threshold after at least 10 s of holding, and the price-update path also
invokes the exit routine once the hold duration has elapsed. -/
theorem C7_amended_exit_gated_on_profit (mid : String) (pos : Position)
    (current now : ℚ) :
    ((current - pos.entry_price) / pos.entry_price * 100 ≥
        LagCfg.MIN_EXIT_PROFIT_PCT * 100 →
      scheduledExit [(mid, pos)] mid (some current) = []) ∧
    ((current - pos.entry_price) / pos.entry_price * 100 <
        LagCfg.MIN_EXIT_PROFIT_PCT * 100 →
      scheduledExit [(mid, pos)] mid (some current) = [(mid, pos)]) ∧
    ((current - pos.entry_price) / pos.entry_price * 100 ≥
        LagCfg.MIN_EXIT_PROFIT_PCT * 100 → now - pos.entry_time ≥ 10 →
      checkExitConditions [(mid, pos)] mid (some current) now = []) ∧
    (now - pos.entry_time ≥ LagCfg.EXIT_HOLD_SECONDS →
      checkExitConditions [(mid, pos)] mid (some current) now =
        exitPosition [(mid, pos)] mid (some current)) := by
  have hlook : lookupPos [(mid, pos)] mid = some pos := by
    simp [lookupPos]
  have herase : erasePos [(mid, pos)] mid = [] := by
    simp [erasePos]
  have hexit_hi : (current - pos.entry_price) / pos.entry_price * 100 ≥
      LagCfg.MIN_EXIT_PROFIT_PCT * 100 →
      exitPosition [(mid, pos)] mid (some current) = [] := by
    intro h
    unfold exitPosition
    rw [hlook]
    simp only [if_pos h, herase]
  refine ⟨?_, ?_, ?_, ?_⟩
  · intro h
    unfold scheduledExit
    rw [hlook]
    exact hexit_hi h
  · intro h
    unfold scheduledExit exitPosition
    rw [hlook]
    simp only [if_neg (not_le.mpr h)]
  · intro h1 h2
    unfold checkExitConditions
    rw [hlook]
    simp only [if_pos (And.intro h1 h2)]
    exact hexit_hi h1
  · intro hhold
    unfold checkExitConditions
    rw [hlook]
    by_cases hearly : (current - pos.entry_price) / pos.entry_price * 100 ≥
        LagCfg.MIN_EXIT_PROFIT_PCT * 100 ∧ now - pos.entry_time ≥ 10
    · simp only [if_pos hearly]
    · simp only [if_neg hearly, if_pos hhold]

/-- Witness for the amended C7: a position entered at 0.5 showing a 20%
profit at a price update 12 s after entry is closed by the early exit, and
the same position is closed by the hold-timer exit path. -/
theorem C7_amended_exit_gated_on_profit_witness :
    checkExitConditions [("m1", ⟨0, 1/2, 10⟩)] "m1" (some (3/5)) 12 = [] ∧
    scheduledExit [("m1", ⟨0, 1/2, 10⟩)] "m1" (some (3/5)) = [] := by
  have h := C7_amended_exit_gated_on_profit "m1" ⟨0, 1/2, 10⟩ (3/5) 12
  have hp : ((3/5 : ℚ) - (1/2)) / (1/2) * 100 ≥ LagCfg.MIN_EXIT_PROFIT_PCT * 100 := by
    norm_num [LagCfg.MIN_EXIT_PROFIT_PCT]
  exact ⟨h.2.2.1 hp (by norm_num), h.1 hp⟩

/-- `_execute_lag_trade` trade sizing:
`round(max(min(MAX_TRADE_SIZE_USDC / entry_price, liquidity / 10), 1.0), 2)`. -/
def lagTradeSize (entry_price liquidity : ℚ) : ℚ :=
  round2 (max (min (LagCfg.MAX_TRADE_SIZE_USDC / entry_price) (liquidity / 10)) 1)

/-- C10: the lag-trade size is always at least 1.0 share — the
`max(..., 1.0)` clamp means the strategy never rejects an opportunity for
insufficient size — and when the liquidity-derived cap is below one share
(liquidity 5 gives cap 0.5) the submitted size of 1.0 exceeds that cap. -/
theorem C10_lag_trade_size_at_least_one :
    (∀ entry_price liquidity : ℚ, 1 ≤ lagTradeSize entry_price liquidity) ∧
    lagTradeSize (1/2) 5 = 1 ∧ (5 : ℚ) / 10 < 1 := by
  refine ⟨?_, ?_, by norm_num⟩
  · intro entry_price liquidity
    unfold lagTradeSize
    exact one_le_round2 _ (le_max_right _ _)
  · unfold lagTradeSize
    rw [show max (min (LagCfg.MAX_TRADE_SIZE_USDC / (1/2)) ((5:ℚ) / 10)) 1 = 1 by
      norm_num [LagCfg.MAX_TRADE_SIZE_USDC, min_def, max_def]]
    rw [show ((1:ℚ)) = ((1:ℤ):ℚ) by norm_num, round2_intCast]

/-! ### Market discovery scoring
(src/Polymarket_Arbitrage/discovery.py, `_calculate_market_score`) -/

/-- Liquidity component: 0-40 points, linear up to a 50000 cap. -/
def liquidityScore (liquidity : ℚ) : ℚ := min 40 (liquidity / 50000 * 40)

/-- Volume component: 0-30 points, linear up to a 10000 cap. -/
def volumeScore (volume : ℚ) : ℚ := min 30 (volume / 10000 * 30)

/-- Price-efficiency component: 0-20 points in four bands of
`|1 - (price_a + price_b)|`. -/
def priceScore (price_a price_b : ℚ) : ℚ :=
  if |1 - (price_a + price_b)| ≤ 1/100 then 20
  else if |1 - (price_a + price_b)| ≤ 1/20 then 15
  else if |1 - (price_a + price_b)| ≤ 1/10 then 10
  else 0

/-- Time-until-end component: 0-10 points, highest in the 24-168 h window. -/
def timeScore (hours_until_end : ℚ) : ℚ :=
  if 24 ≤ hours_until_end ∧ hours_until_end ≤ 168 then 10
  else if 168 < hours_until_end ∧ hours_until_end ≤ 720 then 7
  else if 12 ≤ hours_until_end ∧ hours_until_end < 24 then 5
  else if 720 < hours_until_end then 3
  else 1

/-- `MarketDiscovery._calculate_market_score`: the sum of the four
components. -/
def calculateMarketScore (liquidity volume price_a price_b hours_until_end : ℚ) :
    ℚ :=
  liquidityScore liquidity + volumeScore volume +
    priceScore price_a price_b + timeScore hours_until_end

theorem liquidityScore_mono {l l' : ℚ} (h : l ≤ l') :
    liquidityScore l ≤ liquidityScore l' := by
  unfold liquidityScore
  exact min_le_min (le_refl _) (by linarith)

theorem volumeScore_mono {v v' : ℚ} (h : v ≤ v') :
    volumeScore v ≤ volumeScore v' := by
  unfold volumeScore
  exact min_le_min (le_refl _) (by linarith)

theorem priceScore_le (price_a price_b : ℚ) : priceScore price_a price_b ≤ 20 := by
  unfold priceScore
  split
  · norm_num
  · split
    · norm_num
    · split <;> norm_num

theorem timeScore_le (h : ℚ) : timeScore h ≤ 10 := by
  unfold timeScore
  split
  · norm_num
  · split
    · norm_num
    · split
      · norm_num
      · split <;> norm_num

/-- C9: the market quality score is monotonically non-decreasing in
liquidity, in volume, and in the time-window-fit component, the other
inputs held fixed (stated jointly: raising any of the three never
lowers the score), and it never exceeds the 100-point scale. -/
theorem C9_market_score_monotone (l l' v v' pa pb h h' : ℚ)
    (hl : l ≤ l') (hv : v ≤ v') (ht : timeScore h ≤ timeScore h') :
    calculateMarketScore l v pa pb h ≤ calculateMarketScore l' v' pa pb h' ∧
    calculateMarketScore l v pa pb h ≤ 100 := by
  constructor
  · unfold calculateMarketScore
    have h1 := liquidityScore_mono hl
    have h2 := volumeScore_mono hv
    linarith
  · unfold calculateMarketScore
    have h1 : liquidityScore l ≤ 40 := min_le_left _ _
    have h2 : volumeScore v ≤ 30 := min_le_left _ _
    have h3 := priceScore_le pa pb
    have h4 := timeScore_le h
    linarith

/-- Witness for C9: raising liquidity 0 → 50000, volume 0 → 10000 and the
time window 1 h → 100 h (time component 1 → 10) never lowers the score of a
perfectly priced market, and the low score stays within the scale. -/
theorem C9_market_score_monotone_witness :
    calculateMarketScore 0 0 (1/2) (1/2) 1 ≤
      calculateMarketScore 50000 10000 (1/2) (1/2) 100 ∧
    calculateMarketScore 0 0 (1/2) (1/2) 1 ≤ 100 :=
  C9_market_score_monotone 0 50000 0 10000 (1/2) (1/2) 1 100
    (by norm_num) (by norm_num) (by norm_num [timeScore])
